import Mathlib

/-!
# Verification of the s3-test-app authentication and authorization core

This development embeds the token codec (HMAC-SHA256 signed, base64-encoded,
JSON-serialized claims), the role/permission model, the request-context
identity plumbing and the authentication/authorization middleware of the
s3-test-app Go repository, and proves the specified properties about them.

Modelling conventions:
- Go byte strings are modelled as lists of natural numbers (one entry per
  byte); well-formedness of a byte string (every entry below 256) is the
  explicit predicate ByteOk.
- 32-bit machine arithmetic is Nat arithmetic reduced modulo 2 ^ 32 at
  every step where Go overflows.
- Clock reads are an explicit integer parameter now (a Unix timestamp);
  the two consecutive clock reads in GenerateToken are modelled as the
  same instant.
- time.Time values inside Claims are modelled as integer timestamps, and
  the JSON codec serializes them as JSON integers.
-/

/-- Byte strings: one natural number per byte. -/
abbrev Bytes := List Nat

/-- Bytes of a Lean string literal (used only for ASCII literals that occur
in the Go source, such as role names and JSON keys). -/
def strBytes (s : String) : Bytes := s.data.map Char.toNat

/-- Every entry of the list is an actual byte value. -/
def ByteOk (bs : Bytes) : Prop := ∀ b ∈ bs, b < 256

instance : DecidablePred ByteOk := fun bs =>
  inferInstanceAs (Decidable (∀ b ∈ bs, b < 256))

/-! ## 32-bit bitwise primitives

Kernel-friendly (fuel-structural) bitwise operations on 32-bit words,
modelling the word operations used by crypto/sha256. -/

/-- Bitwise exclusive or of the low fuel bits. -/
def bitXorAux : Nat → Nat → Nat → Nat
  | 0, _, _ => 0
  | f + 1, a, b => (if a % 2 = b % 2 then 0 else 1) + 2 * bitXorAux f (a / 2) (b / 2)

/-- 32-bit exclusive or. -/
def xor32 (a b : Nat) : Nat := bitXorAux 32 a b

/-- Bitwise and of the low fuel bits. -/
def bitAndAux : Nat → Nat → Nat → Nat
  | 0, _, _ => 0
  | f + 1, a, b => (if a % 2 = 1 ∧ b % 2 = 1 then 1 else 0) + 2 * bitAndAux f (a / 2) (b / 2)

/-- 32-bit and. -/
def and32 (a b : Nat) : Nat := bitAndAux 32 a b

/-- 32-bit complement. -/
def not32 (a : Nat) : Nat := 4294967295 - a % 4294967296

/-- Rotate a 32-bit word right by n bits. -/
def rotr32 (n w : Nat) : Nat :=
  w % 4294967296 / 2 ^ n + w % 4294967296 % 2 ^ n * 2 ^ (32 - n)

/-- Shift a 32-bit word right by n bits. -/
def shr32 (n w : Nat) : Nat := w % 4294967296 / 2 ^ n

/-! ## SHA-256

A direct embedding of FIPS 180-4 SHA-256 as used by Go crypto/sha256. -/

/-- SHA-256 initial hash values (FIPS 180-4 section 5.3.3, as decimal
words). -/
def sha256InitH : List Nat :=
  [1779033703, 3144134277, 1013904242, 2773480762,
   1359893119, 2600822924, 528734635, 1541459225]

/-- SHA-256 round constants (FIPS 180-4 section 4.2.2, as decimal
words). -/
def sha256K : List Nat :=
  [1116352408, 1899447441, 3049323471, 3921009573, 961987163, 1508970993,
   2453635748, 2870763221, 3624381080, 310598401, 607225278, 1426881987,
   1925078388, 2162078206, 2614888103, 3248222580, 3835390401, 4022224774,
   264347078, 604807628, 770255983, 1249150122, 1555081692, 1996064986,
   2554220882, 2821834349, 2952996808, 3210313671, 3336571891, 3584528711,
   113926993, 338241895, 666307205, 773529912, 1294757372, 1396182291,
   1695183700, 1986661051, 2177026350, 2456956037, 2730485921, 2820302411,
   3259730800, 3345764771, 3516065817, 3600352804, 4094571909, 275423344,
   430227734, 506948616, 659060556, 883997877, 958139571, 1322822218,
   1537002063, 1747873779, 1955562222, 2024104815, 2227730452, 2361852424,
   2428436474, 2756734187, 3204031479, 3329325298]

/-- Small sigma 0 of the SHA-256 message schedule. -/
def smallSigma0 (w : Nat) : Nat := xor32 (xor32 (rotr32 7 w) (rotr32 18 w)) (shr32 3 w)

/-- Small sigma 1 of the SHA-256 message schedule. -/
def smallSigma1 (w : Nat) : Nat := xor32 (xor32 (rotr32 17 w) (rotr32 19 w)) (shr32 10 w)

/-- Big Sigma 0 of the SHA-256 compression function. -/
def bigSigma0 (x : Nat) : Nat := xor32 (xor32 (rotr32 2 x) (rotr32 13 x)) (rotr32 22 x)

/-- Big Sigma 1 of the SHA-256 compression function. -/
def bigSigma1 (x : Nat) : Nat := xor32 (xor32 (rotr32 6 x) (rotr32 11 x)) (rotr32 25 x)

/-- Choice function of the SHA-256 compression function. -/
def shaCh (x y z : Nat) : Nat := xor32 (and32 x y) (and32 (not32 x) z)

/-- Majority function of the SHA-256 compression function. -/
def shaMaj (x y z : Nat) : Nat := xor32 (xor32 (and32 x y) (and32 x z)) (and32 y z)

/-- Extend the message schedule, keeping produced words most recent first. -/
def scheduleExtend : Nat → List Nat → List Nat
  | 0, ws => ws
  | k + 1, ws =>
    let w2 := ws.getD 1 0
    let w7 := ws.getD 6 0
    let w15 := ws.getD 14 0
    let w16 := ws.getD 15 0
    scheduleExtend k ((smallSigma1 w2 + w7 + smallSigma0 w15 + w16) % 4294967296 :: ws)

/-- The 64-word message schedule of one 16-word block. -/
def sha256Schedule (block : List Nat) : List Nat :=
  (scheduleExtend 48 block.reverse).reverse

/-- One round of the SHA-256 compression function. -/
def sha256Round (st : Nat × Nat × Nat × Nat × Nat × Nat × Nat × Nat) (kw : Nat × Nat) :
    Nat × Nat × Nat × Nat × Nat × Nat × Nat × Nat :=
  match st, kw with
  | (a, b, c, d, e, f, g, h), (k, w) =>
    let t1 := (h + bigSigma1 e + shaCh e f g + k + w) % 4294967296
    let t2 := (bigSigma0 a + shaMaj a b c) % 4294967296
    ((t1 + t2) % 4294967296, a, b, c, (d + t1) % 4294967296, e, f, g)

/-- Compress one 16-word block into the running 8-word hash state. -/
def sha256Compress (hs : List Nat) (block : List Nat) : List Nat :=
  let ws := sha256Schedule block
  let a0 := hs.getD 0 0
  let b0 := hs.getD 1 0
  let c0 := hs.getD 2 0
  let d0 := hs.getD 3 0
  let e0 := hs.getD 4 0
  let f0 := hs.getD 5 0
  let g0 := hs.getD 6 0
  let h0 := hs.getD 7 0
  match (sha256K.zip ws).foldl sha256Round (a0, b0, c0, d0, e0, f0, g0, h0) with
  | (a, b, c, d, e, f, g, h) =>
    [(a0 + a) % 4294967296, (b0 + b) % 4294967296, (c0 + c) % 4294967296,
     (d0 + d) % 4294967296, (e0 + e) % 4294967296, (f0 + f) % 4294967296,
     (g0 + g) % 4294967296, (h0 + h) % 4294967296]

/-- Big-endian 32-bit words of a byte string (groups of four bytes). -/
def bytesToWords : Bytes → List Nat
  | b0 :: b1 :: b2 :: b3 :: rest =>
    (b0 * 16777216 + b1 * 65536 + b2 * 256 + b3) :: bytesToWords rest
  | _ => []

/-- Big-endian bytes of a 32-bit word. -/
def wordBytes (w : Nat) : Bytes :=
  [w / 16777216 % 256, w / 65536 % 256, w / 256 % 256, w % 256]

/-- Big-endian bytes of the 64-bit message bit length. -/
def lenBytes64 (n : Nat) : Bytes :=
  [n / 72057594037927936 % 256, n / 281474976710656 % 256,
   n / 1099511627776 % 256, n / 4294967296 % 256,
   n / 16777216 % 256, n / 65536 % 256, n / 256 % 256, n % 256]

/-- SHA-256 message padding: a 1 bit, zeros, and the 64-bit bit length,
filling to a multiple of 64 bytes. -/
def sha256Pad (msg : Bytes) : Bytes :=
  msg ++ 128 :: List.replicate ((119 - msg.length % 64) % 64) 0
      ++ lenBytes64 (msg.length * 8)

/-- Split a byte string into 64-byte chunks (fuel-structural). -/
def chunks64 : Nat → Bytes → List Bytes
  | 0, _ => []
  | _ + 1, [] => []
  | f + 1, bs => bs.take 64 :: chunks64 f (bs.drop 64)

/-- The SHA-256 digest (32 bytes) of a byte string. -/
def sha256 (msg : Bytes) : Bytes :=
  let padded := sha256Pad msg
  let final := (chunks64 padded.length padded).foldl
    (fun hs block => sha256Compress hs (bytesToWords block)) sha256InitH
  final.foldr (fun w acc => wordBytes w ++ acc) []

/-! ## HMAC-SHA256

Embedding of Go crypto/hmac specialized to SHA-256, as constructed by
hmac.New(sha256.New, key). -/

/-- 8-bit exclusive or, for key masking. -/
def xorByte (a b : Nat) : Nat := bitXorAux 8 a b

/-- HMAC-SHA256 of a message under a key. -/
def hmacSHA256 (key msg : Bytes) : Bytes :=
  let k := if 64 < key.length then sha256 key else key
  let k0 := k ++ List.replicate (64 - k.length) 0
  let ipad := k0.map (fun b => xorByte b 54)
  let opad := k0.map (fun b => xorByte b 92)
  sha256 (opad ++ sha256 (ipad ++ msg))

/-! ## Base64 (standard encoding)

Embedding of Go encoding/base64 StdEncoding: the standard alphabet with
padding. Decoding is the default (non-strict) Go decoder, which accepts
non-zero trailing padding bits; line breaks inside the input are not
modelled. -/

/-- The standard base64 alphabet, as byte values. -/
def encChar (n : Nat) : Nat :=
  if n < 26 then 65 + n
  else if n < 52 then 97 + (n - 26)
  else if n < 62 then 48 + (n - 52)
  else if n = 62 then 43
  else 47

/-- Decode one base64 alphabet character. -/
def decChar (c : Nat) : Option Nat :=
  if 65 ≤ c ∧ c ≤ 90 then some (c - 65)
  else if 97 ≤ c ∧ c ≤ 122 then some (c - 97 + 26)
  else if 48 ≤ c ∧ c ≤ 57 then some (c - 48 + 52)
  else if c = 43 then some 62
  else if c = 47 then some 63
  else none

/-- Base64-encode a byte string, with padding (Go StdEncoding.EncodeToString). -/
def base64Encode : Bytes → Bytes
  | [] => []
  | [b0] => [encChar (b0 / 4), encChar (b0 % 4 * 16), 61, 61]
  | [b0, b1] => [encChar (b0 / 4), encChar (b0 % 4 * 16 + b1 / 16), encChar (b1 % 16 * 4), 61]
  | b0 :: b1 :: b2 :: rest =>
    encChar (b0 / 4) :: encChar (b0 % 4 * 16 + b1 / 16) ::
      encChar (b1 % 16 * 4 + b2 / 64) :: encChar (b2 % 64) :: base64Encode rest

/-- Base64-decode a byte string (Go StdEncoding.DecodeString): input length
must be a multiple of four, padding only in the final group, trailing
padding bits are not checked. -/
def base64Decode : Bytes → Option Bytes
  | [] => some []
  | c0 :: c1 :: c2 :: c3 :: rest =>
    if c3 = 61 then
      if rest = [] then
        if c2 = 61 then
          match decChar c0, decChar c1 with
          | some v0, some v1 => some [v0 * 4 + v1 / 16]
          | _, _ => none
        else
          match decChar c0, decChar c1, decChar c2 with
          | some v0, some v1, some v2 => some [v0 * 4 + v1 / 16, v1 % 16 * 16 + v2 / 4]
          | _, _, _ => none
      else none
    else
      match decChar c0, decChar c1, decChar c2, decChar c3 with
      | some v0, some v1, some v2, some v3 =>
        (fun bs => (v0 * 4 + v1 / 16) :: (v1 % 16 * 16 + v2 / 4) :: (v2 % 4 * 64 + v3) :: bs) <$>
          base64Decode rest
      | _, _, _, _ => none
  | _ => none

/-! ## Splitting on a separator byte

Embedding of Go strings.Split for a one-byte separator. -/

/-- Split a byte string on every occurrence of a separator byte. -/
def splitOnByte (sep : Nat) : Bytes → List Bytes
  | [] => [[]]
  | c :: rest =>
    if c = sep then [] :: splitOnByte sep rest
    else
      match splitOnByte sep rest with
      | [] => [[c]]
      | seg :: segs => (c :: seg) :: segs

/-! ## JSON codec for Claims

Embedding of encoding/json restricted to the Claims struct: jsonMarshal
produces the object with the fields in struct declaration order (the order
Go emits); jsonUnmarshal parses exactly that canonical shape. Strings are
escaped for the quote, the backslash and control bytes (via a lowercase
four-digit unicode escape); HTML escaping and UTF-8 re-encoding are not
modelled, and time.Time values are modelled as JSON integers. -/

/-- Lowercase hexadecimal digit character of a value below 16. -/
def hexDigit (n : Nat) : Nat := if n < 10 then 48 + n else 87 + n

/-- Value of a lowercase hexadecimal digit character. -/
def hexVal (c : Nat) : Option Nat :=
  if 48 ≤ c ∧ c ≤ 57 then some (c - 48)
  else if 97 ≤ c ∧ c ≤ 102 then some (c - 97 + 10)
  else none

/-- JSON string-body escaping of a byte string. -/
def escapeBytes : Bytes → Bytes
  | [] => []
  | b :: rest =>
    (if b = 34 then [92, 34]
     else if b = 92 then [92, 92]
     else if b < 32 then [92, 117, 48, 48, hexDigit (b / 16), hexDigit (b % 16)]
     else [b]) ++ escapeBytes rest

/-- A JSON string literal: quote, escaped body, quote. -/
def jsonStr (s : Bytes) : Bytes := 34 :: escapeBytes s ++ [34]

/-- Decimal digits of a natural number (fuel-structural helper). -/
def natDecAux : Nat → Nat → Bytes
  | 0, _ => []
  | f + 1, n => if n < 10 then [48 + n] else natDecAux f (n / 10) ++ [48 + n % 10]

/-- Decimal digits of a natural number. -/
def natDec (n : Nat) : Bytes := natDecAux (n + 1) n

/-- A JSON integer literal of an integer. -/
def jsonInt (i : Int) : Bytes :=
  if i < 0 then 45 :: natDec i.natAbs else natDec i.toNat

/-- Parse an exact literal prefix, returning the remainder. -/
def parseLit : Bytes → Bytes → Option Bytes
  | [], input => some input
  | _ :: _, [] => none
  | l :: ls, c :: rest => if l = c then parseLit ls rest else none

/-- Parse a JSON string body up to the closing quote, undoing escapeBytes. -/
def parseStrBody : Bytes → Option (Bytes × Bytes)
  | [] => none
  | 34 :: rest => some ([], rest)
  | 92 :: 34 :: rest => (fun p => (34 :: p.1, p.2)) <$> parseStrBody rest
  | 92 :: 92 :: rest => (fun p => (92 :: p.1, p.2)) <$> parseStrBody rest
  | 92 :: 117 :: h1 :: h2 :: h3 :: h4 :: rest =>
    match hexVal h1, hexVal h2, hexVal h3, hexVal h4 with
    | some v1, some v2, some v3, some v4 =>
      (fun p => ((v1 * 4096 + v2 * 256 + v3 * 16 + v4) :: p.1, p.2)) <$> parseStrBody rest
    | _, _, _, _ => none
  | 92 :: _ => none
  | c :: rest => (fun p => (c :: p.1, p.2)) <$> parseStrBody rest

/-- Parse a JSON string literal. -/
def parseJsonStr : Bytes → Option (Bytes × Bytes)
  | 34 :: rest => parseStrBody rest
  | _ => none

/-- Consume a maximal run of decimal digits into an accumulator. -/
def parseDigits : Nat → Bytes → Nat × Bytes
  | acc, c :: rest =>
    if 48 ≤ c ∧ c ≤ 57 then parseDigits (acc * 10 + (c - 48)) rest else (acc, c :: rest)
  | acc, [] => (acc, [])

/-- Parse a decimal natural number (at least one digit). -/
def parseNat : Bytes → Option (Nat × Bytes)
  | c :: rest =>
    if 48 ≤ c ∧ c ≤ 57 then some (parseDigits (c - 48) rest) else none
  | [] => none

/-- Parse a JSON integer literal. -/
def parseJsonInt : Bytes → Option (Int × Bytes)
  | [] => none
  | c :: rest =>
    if c = 45 then (fun p => (-(p.1 : Int), p.2)) <$> parseNat rest
    else (fun p => ((p.1 : Int), p.2)) <$> parseNat (c :: rest)

/-! ## Roles, users, permissions (internal/auth/types.go) -/

/-- Role represents user roles (a string-valued type in the source). -/
abbrev Role := Bytes

/-- The admin role tag. -/
def RoleAdmin : Role := strBytes "admin"

/-- The uploader role tag. -/
def RoleUploader : Role := strBytes "uploader"

/-- The viewer role tag. -/
def RoleViewer : Role := strBytes "viewer"

/-- User represents an authenticated user. -/
structure User where
  id : Bytes
  name : Bytes
  email : Bytes
  role : Role
deriving DecidableEq, Repr

/-- Permission represents what actions a role can perform. -/
structure Permission where
  canUpload : Bool
  canView : Bool
  canDelete : Bool
  canManage : Bool
deriving DecidableEq, Repr

/-- PermissionMap defines permissions for each role; indexing an unmapped
role yields the Go zero value (all capabilities false). -/
def PermissionMap (r : Role) : Permission :=
  if r = RoleAdmin then ⟨true, true, true, true⟩
  else if r = RoleUploader then ⟨true, true, false, false⟩
  else if r = RoleViewer then ⟨false, true, false, false⟩
  else ⟨false, false, false, false⟩

/-- HasPermission checks if a user has a specific permission
(User.HasPermission in the source). -/
def User.hasPermission (u : User) (perm : Permission) : Bool :=
  if perm.canUpload && !(PermissionMap u.role).canUpload then false
  else if perm.canView && !(PermissionMap u.role).canView then false
  else if perm.canDelete && !(PermissionMap u.role).canDelete then false
  else if perm.canManage && !(PermissionMap u.role).canManage then false
  else true

/-! ## Request context (internal/auth/types.go)

A Go context is modelled as the list of key/value pairs installed by
context.WithValue, most recent first; Value returns the most recent
binding of a key. Values are tagged so that the interface type assertion
of GetUserFromContext is modelled faithfully: a non-User value under the
user key fails the assertion. -/

/-- A value stored in a context: a user pointer or some other value. -/
inductive CtxVal where
  | userVal (u : User)
  | otherVal (tag : Nat)
deriving DecidableEq, Repr

/-- A request context: bindings, most recent first. -/
abbrev Context := List (Bytes × CtxVal)

/-- ContextKey for storing user in context (UserContextKey in the source). -/
def UserContextKey : Bytes := strBytes "user"

/-- Look up the most recent binding of a key (context.Value). -/
def contextValue : Context → Bytes → Option CtxVal
  | [], _ => none
  | (k, v) :: rest, key => if k = key then some v else contextValue rest key

/-- GetUserFromContext retrieves the user from the context, or nil (none)
when the key is unbound or bound to a non-User value. -/
def GetUserFromContext (ctx : Context) : Option User :=
  match contextValue ctx UserContextKey with
  | some (CtxVal.userVal u) => some u
  | _ => none

/-- SetUserInContext stores a user in the context (context.WithValue). -/
def SetUserInContext (ctx : Context) (user : User) : Context :=
  (UserContextKey, CtxVal.userVal user) :: ctx

/-! ## Claims and the token manager (token code of the repository) -/

/-- Claims represents token claims; timestamps are Unix integers. -/
structure Claims where
  userId : Bytes
  email : Bytes
  name : Bytes
  role : Role
  expiresAt : Int
  issuedAt : Int
deriving DecidableEq, Repr

/-- Serialize Claims to its canonical JSON bytes, fields in struct order:
user_id, email, name, role, exp, iat (encoding/json on the Claims struct). -/
def jsonMarshal (c : Claims) : Bytes :=
  [123] ++ jsonStr (strBytes "user_id") ++ [58] ++ jsonStr c.userId
    ++ [44] ++ jsonStr (strBytes "email") ++ [58] ++ jsonStr c.email
    ++ [44] ++ jsonStr (strBytes "name") ++ [58] ++ jsonStr c.name
    ++ [44] ++ jsonStr (strBytes "role") ++ [58] ++ jsonStr c.role
    ++ [44] ++ jsonStr (strBytes "exp") ++ [58] ++ jsonInt c.expiresAt
    ++ [44] ++ jsonStr (strBytes "iat") ++ [58] ++ jsonInt c.issuedAt
    ++ [125]

/-- Deserialize Claims from the canonical JSON shape emitted by
jsonMarshal (encoding/json Unmarshal restricted to that shape). -/
def jsonUnmarshal (input : Bytes) : Option Claims := do
  let r0 ← parseLit [123] input
  let r1 ← parseLit (jsonStr (strBytes "user_id") ++ [58]) r0
  let (userId, r2) ← parseJsonStr r1
  let r3 ← parseLit (44 :: jsonStr (strBytes "email") ++ [58]) r2
  let (email, r4) ← parseJsonStr r3
  let r5 ← parseLit (44 :: jsonStr (strBytes "name") ++ [58]) r4
  let (name, r6) ← parseJsonStr r5
  let r7 ← parseLit (44 :: jsonStr (strBytes "role") ++ [58]) r6
  let (role, r8) ← parseJsonStr r7
  let r9 ← parseLit (44 :: jsonStr (strBytes "exp") ++ [58]) r8
  let (exp, r10) ← parseJsonInt r9
  let r11 ← parseLit (44 :: jsonStr (strBytes "iat") ++ [58]) r10
  let (iat, r12) ← parseJsonInt r11
  let r13 ← parseLit [125] r12
  if r13 = [] then some ⟨userId, email, name, role, exp, iat⟩ else none

/-- The validation error taxonomy of ValidateToken, one constructor per
distinct error the source returns. -/
inductive TokenError where
  | invalidFormat
  | invalidSignature
  | expired
  | malformedClaims
deriving DecidableEq, Repr

/-- GenerateToken generates a token for a user: claims with
issued_at = now and expires_at = now + expirationTime, serialized,
HMAC-SHA256 signed under the secret, both segments base64 encoded and
joined with a dot (TokenManager.GenerateToken; the impossible
json.Marshal error path is elided). -/
def GenerateToken (secret : Bytes) (now : Int) (user : User) (expirationTime : Int) : Bytes :=
  let claims : Claims :=
    { userId := user.id, email := user.email, name := user.name, role := user.role
      expiresAt := now + expirationTime, issuedAt := now }
  let claimsJSON := jsonMarshal claims
  let signature := base64Encode (hmacSHA256 secret claimsJSON)
  let encodedClaims := base64Encode claimsJSON
  encodedClaims ++ 46 :: signature

/-- ValidateToken validates a token and returns claims
(TokenManager.ValidateToken): split on the dot, base64 decode the claims
segment, compare the signature segment byte for byte against the
recomputed base64 encoded HMAC, parse the claims, then reject tokens
whose expiry lies strictly in the past. -/
def ValidateToken (secret : Bytes) (now : Int) (tokenString : Bytes) : Except TokenError Claims :=
  match splitOnByte 46 tokenString with
  | [encodedClaims, signature] =>
    match base64Decode encodedClaims with
    | none => .error .invalidFormat
    | some claimsJSON =>
      let expectedSignature := base64Encode (hmacSHA256 secret claimsJSON)
      if signature ≠ expectedSignature then .error .invalidSignature
      else
        match jsonUnmarshal claimsJSON with
        | none => .error .malformedClaims
        | some claims =>
          if now > claims.expiresAt then .error .expired
          else .ok claims
  | _ => .error .invalidFormat

/-- ToUser converts claims to a user (Claims.ToUser). -/
def Claims.toUser (c : Claims) : User :=
  { id := c.userId, name := c.name, email := c.email, role := c.role }

instance : DecidableEq (Except TokenError Claims) := fun x y =>
  match x, y with
  | .error a, .error b => decidable_of_iff (a = b) (by simp)
  | .ok a, .ok b => decidable_of_iff (a = b) (by simp)
  | .error _, .ok _ => isFalse (by simp)
  | .ok _, .error _ => isFalse (by simp)

/-! ## Middleware (internal/middleware/auth.go)

An inbound request is modelled by its two token carriers: the auth_token
cookie (absent or a value) and the Authorization header (Header.Get
yields the empty string when the header is absent). A middleware either
terminates the request with an HTTP error or passes an updated context to
the next handler; both outcomes are explicit constructors. -/

/-- The token carriers of an inbound request. -/
structure Request where
  authTokenCookie : Option Bytes
  authorizationHeader : Bytes
deriving DecidableEq, Repr

/-- The outcome of a middleware: terminate with an error status, or run
the next handler with the given request context. -/
inductive MiddlewareOutcome where
  | terminated (status : Nat)
  | next (ctx : Context)
deriving DecidableEq, Repr

/-- The candidate token of a request: the auth_token cookie value when the
cookie is present, else the bearer token of a well-formed Authorization
header (the carrier-selection logic of AuthMiddleware). -/
def carriedToken (r : Request) : Option Bytes :=
  match r.authTokenCookie with
  | some v => some v
  | none =>
    if r.authorizationHeader = [] then none
    else
      match splitOnByte 32 r.authorizationHeader with
      | [p0, p1] => if p0 = strBytes "Bearer" then some p1 else none
      | _ => none

/-- AuthMiddleware validates tokens and extracts user information: locate
a candidate token (cookie first, bearer header as fallback), validate it,
and on success attach the claims-derived user to the request context for
the next handler; every failure terminates with status 401 and attaches
nothing. -/
def AuthMiddleware (secret : Bytes) (now : Int) (r : Request) (ctx : Context) :
    MiddlewareOutcome :=
  match carriedToken r with
  | none => .terminated 401
  | some tokenString =>
    match ValidateToken secret now tokenString with
    | .error _ => .terminated 401
    | .ok claims => .next (SetUserInContext ctx claims.toUser)

/-- RequireRole checks if the context user has the required role: no user
means 401; a user passes iff their role is admin or the required role,
else 403. -/
def RequireRole (role : Role) (ctx : Context) : MiddlewareOutcome :=
  match GetUserFromContext ctx with
  | none => .terminated 401
  | some user =>
    if user.role ≠ RoleAdmin ∧ user.role ≠ role then .terminated 403
    else .next ctx

/-- RequirePermission checks if the context user has the required
permission: no user means 401; a user passes iff HasPermission, else 403. -/
def RequirePermission (perm : Permission) (ctx : Context) : MiddlewareOutcome :=
  match GetUserFromContext ctx with
  | none => .terminated 401
  | some user =>
    if !user.hasPermission perm then .terminated 403
    else .next ctx


/-! ## Lemmas about splitting -/

theorem splitOnByte_ne_nil (sep : Nat) (l : Bytes) : splitOnByte sep l ≠ [] := by
  cases l with
  | nil => simp [splitOnByte]
  | cons c rest =>
    by_cases h : c = sep
    · simp [splitOnByte, h]
    · simp only [splitOnByte, if_neg h]
      cases hs : splitOnByte sep rest <;> simp

theorem splitOnByte_of_not_mem {sep : Nat} {l : Bytes} (h : sep ∉ l) :
    splitOnByte sep l = [l] := by
  induction l with
  | nil => simp [splitOnByte]
  | cons c rest ih =>
    have hc : c ≠ sep := fun he => h (he ▸ List.mem_cons_self c rest)
    have hr : sep ∉ rest := fun hm => h (List.mem_cons_of_mem c hm)
    simp [splitOnByte, hc, ih hr]

theorem splitOnByte_append {sep : Nat} {a : Bytes} (b : Bytes) (h : sep ∉ a) :
    splitOnByte sep (a ++ sep :: b) = a :: splitOnByte sep b := by
  induction a with
  | nil => simp [splitOnByte]
  | cons c rest ih =>
    have hc : c ≠ sep := fun he => h (he ▸ List.mem_cons_self c rest)
    have hr : sep ∉ rest := fun hm => h (List.mem_cons_of_mem c hm)
    simp only [List.cons_append, splitOnByte, if_neg hc]
    rw [List.append_eq, ih hr]

theorem splitOnByte_two {sep : Nat} {a b : Bytes} (ha : sep ∉ a) (hb : sep ∉ b) :
    splitOnByte sep (a ++ sep :: b) = [a, b] := by
  rw [splitOnByte_append b ha, splitOnByte_of_not_mem hb]

/-! ## Lemmas about base64 -/

theorem encChar_ne_dot (n : Nat) : encChar n ≠ 46 := by
  unfold encChar; split_ifs <;> omega

theorem dot_ne_encChar (n : Nat) : 46 ≠ encChar n := (encChar_ne_dot n).symm

theorem encChar_ne_pad (n : Nat) : encChar n ≠ 61 := by
  unfold encChar; split_ifs <;> omega

theorem dot_not_mem_base64Encode (bs : Bytes) : 46 ∉ base64Encode bs := by
  induction bs using base64Encode.induct with
  | case1 => simp [base64Encode]
  | case2 b0 => simp [base64Encode, dot_ne_encChar]
  | case3 b0 b1 => simp [base64Encode, dot_ne_encChar]
  | case4 b0 b1 b2 rest ih =>
    simp [base64Encode, dot_ne_encChar]
    exact ih

theorem decChar_encChar {n : Nat} (h : n < 64) : decChar (encChar n) = some n := by
  revert h
  revert n
  decide

theorem mul_add_div_eq {c x y : Nat} (hc : 0 < c) (hy : y < c) : (x * c + y) / c = x := by
  rw [Nat.add_comm, Nat.add_mul_div_right _ _ hc, Nat.div_eq_of_lt hy, Nat.zero_add]

theorem mul_add_mod_eq {c x y : Nat} (hy : y < c) : (x * c + y) % c = y := by
  rw [Nat.add_comm, Nat.add_mul_mod_self_right, Nat.mod_eq_of_lt hy]

theorem base64Decode_base64Encode {bs : Bytes} (h : ByteOk bs) :
    base64Decode (base64Encode bs) = some bs := by
  induction bs using base64Encode.induct with
  | case1 => simp [base64Encode, base64Decode]
  | case2 b0 =>
    have hb0 : b0 < 256 := h b0 (by simp)
    have h1 : b0 / 4 < 64 := by omega
    have h2 : b0 % 4 * 16 < 64 := by omega
    have e1 : b0 / 4 * 4 + b0 % 4 * 16 / 16 = b0 := by
      rw [Nat.mul_div_cancel _ (by norm_num)]; omega
    simp only [base64Encode, base64Decode, if_pos rfl, decChar_encChar h1, decChar_encChar h2]
    simp only [reduceIte, e1]
  | case3 b0 b1 =>
    have hb0 : b0 < 256 := h b0 (by simp)
    have hb1 : b1 < 256 := h b1 (by simp)
    have h1 : b0 / 4 < 64 := by omega
    have h2 : b0 % 4 * 16 + b1 / 16 < 64 := by omega
    have h3 : b1 % 16 * 4 < 64 := by omega
    have e1 : b0 / 4 * 4 + (b0 % 4 * 16 + b1 / 16) / 16 = b0 := by
      rw [mul_add_div_eq (by norm_num) (by omega)]; omega
    have e2 : (b0 % 4 * 16 + b1 / 16) % 16 * 16 + b1 % 16 * 4 / 4 = b1 := by
      rw [mul_add_mod_eq (by omega), Nat.mul_div_cancel _ (by norm_num)]; omega
    simp only [base64Encode, base64Decode, if_pos rfl, if_neg (encChar_ne_pad (b1 % 16 * 4)),
      decChar_encChar h1, decChar_encChar h2, decChar_encChar h3]
    simp only [reduceIte, e1, e2]
  | case4 b0 b1 b2 rest ih =>
    have hb0 : b0 < 256 := h b0 (by simp)
    have hb1 : b1 < 256 := h b1 (by simp)
    have hb2 : b2 < 256 := h b2 (by simp)
    have hrest : ByteOk rest := fun b hb => h b (by simp [hb])
    have h1 : b0 / 4 < 64 := by omega
    have h2 : b0 % 4 * 16 + b1 / 16 < 64 := by omega
    have h3 : b1 % 16 * 4 + b2 / 64 < 64 := by omega
    have h4 : b2 % 64 < 64 := by omega
    have e1 : b0 / 4 * 4 + (b0 % 4 * 16 + b1 / 16) / 16 = b0 := by
      rw [mul_add_div_eq (by norm_num) (by omega)]; omega
    have e2 : (b0 % 4 * 16 + b1 / 16) % 16 * 16 + (b1 % 16 * 4 + b2 / 64) / 4 = b1 := by
      rw [mul_add_mod_eq (by omega), mul_add_div_eq (by norm_num) (by omega)]; omega
    have e3 : (b1 % 16 * 4 + b2 / 64) % 4 * 64 + b2 % 64 = b2 := by
      rw [mul_add_mod_eq (by omega)]; omega
    simp only [base64Encode, base64Decode, if_neg (encChar_ne_pad (b2 % 64)),
      decChar_encChar h1, decChar_encChar h2, decChar_encChar h3, decChar_encChar h4,
      ih hrest, Option.map_some]
    simp only [e1, e2, e3]

/-! ## Lemmas about the JSON codec -/

theorem hexVal_hexDigit {n : Nat} (h : n < 16) : hexVal (hexDigit n) = some n := by
  revert h
  revert n
  decide

theorem parseLit_append (l rest : Bytes) : parseLit l (l ++ rest) = some rest := by
  induction l with
  | nil => simp [parseLit]
  | cons c t ih => simp [parseLit, ih]

theorem parseStrBody_escape (s rest : Bytes) :
    parseStrBody (escapeBytes s ++ 34 :: rest) = some (s, rest) := by
  induction s with
  | nil => simp [escapeBytes, parseStrBody]
  | cons b t ih =>
    by_cases h34 : b = 34
    · subst h34
      simp [escapeBytes, parseStrBody, ih]
    by_cases h92 : b = 92
    · subst h92
      simp [escapeBytes, parseStrBody, ih]
    by_cases hctl : b < 32
    · have hv0 : hexVal 48 = some 0 := by decide
      have hv1 : hexVal (hexDigit (b / 16)) = some (b / 16) := hexVal_hexDigit (by omega)
      have hv2 : hexVal (hexDigit (b % 16)) = some (b % 16) := hexVal_hexDigit (by omega)
      simp only [escapeBytes, if_neg h34, if_neg h92, if_pos hctl, List.cons_append,
        List.nil_append, parseStrBody, hv0, hv1, hv2, ih, Option.map_some]
      have harith : 0 * 4096 + 0 * 256 + b / 16 * 16 + b % 16 = b := by omega
      rw [harith]
    · simp only [escapeBytes, if_neg h34, if_neg h92, if_neg hctl, List.cons_append,
        List.nil_append]
      simp [parseStrBody, h34, h92, ih]

theorem parseJsonStr_jsonStr (s rest : Bytes) :
    parseJsonStr (jsonStr s ++ rest) = some (s, rest) := by
  have h : jsonStr s ++ rest = 34 :: (escapeBytes s ++ 34 :: rest) := by
    simp [jsonStr]
  rw [h]
  simp only [parseJsonStr]
  exact parseStrBody_escape s rest

theorem natDecAux_congr : ∀ n f g : Nat, n < f → n < g → natDecAux f n = natDecAux g n := by
  intro n
  induction n using Nat.strong_induction_on with
  | _ n ih =>
    intro f g hf hg
    match f, g with
    | f + 1, g + 1 =>
      by_cases h : n < 10
      · simp [natDecAux, h]
      · have hlt : n / 10 < n := Nat.div_lt_self (by omega) (by norm_num)
        simp only [natDecAux, if_neg h]
        rw [ih (n / 10) hlt (f := f) (g := g) (by omega) (by omega)]

theorem natDec_lt_ten {n : Nat} (h : n < 10) : natDec n = [48 + n] := by
  simp [natDec, natDecAux, h]

theorem natDec_ge_ten {n : Nat} (h : 10 ≤ n) :
    natDec n = natDec (n / 10) ++ [48 + n % 10] := by
  have h1 : natDecAux (n + 1) n = natDecAux n (n / 10) ++ [48 + n % 10] := by
    rw [natDecAux, if_neg (by omega : ¬n < 10)]
  rw [natDec, h1,
    natDecAux_congr (n / 10) n (n / 10 + 1) (by omega) (by omega)]
  rfl

theorem natDec_digits : ∀ n : Nat, ∀ b ∈ natDec n, 48 ≤ b ∧ b ≤ 57 := by
  intro n
  induction n using Nat.strong_induction_on with
  | _ n ih =>
    by_cases h : n < 10
    · rw [natDec_lt_ten h]
      intro b hb
      simp at hb
      omega
    · rw [natDec_ge_ten (by omega)]
      intro b hb
      rcases List.mem_append.mp hb with hm | hm
      · exact ih (n / 10) (Nat.div_lt_self (by omega) (by norm_num)) b hm
      · simp at hm
        omega

theorem natDec_ne_nil (n : Nat) : natDec n ≠ [] := by
  by_cases h : n < 10
  · rw [natDec_lt_ten h]; simp
  · rw [natDec_ge_ten (by omega)]; simp

theorem parseDigits_natDec : ∀ n acc : Nat, ∀ rest : Bytes,
    parseDigits acc (natDec n ++ rest) = parseDigits (acc * 10 ^ (natDec n).length + n) rest := by
  intro n
  induction n using Nat.strong_induction_on with
  | _ n ih =>
    intro acc rest
    by_cases h : n < 10
    · rw [natDec_lt_ten h]
      simp only [List.cons_append, List.nil_append, parseDigits, List.length_cons,
        List.length_nil]
      rw [if_pos (by omega)]
      congr 1
      omega
    · rw [natDec_ge_ten (by omega), List.append_assoc, List.cons_append, List.nil_append,
        ih (n / 10) (Nat.div_lt_self (by omega) (by norm_num))]
      simp only [parseDigits]
      rw [if_pos (by omega)]
      have e48 : 48 + n % 10 - 48 = n % 10 := by omega
      have hlen : (natDec (n / 10) ++ [48 + n % 10]).length = (natDec (n / 10)).length + 1 := by
        simp
      rw [e48, hlen, pow_succ]
      have hdm : n / 10 * 10 + n % 10 = n := by omega
      have hcalc : (acc * 10 ^ (natDec (n / 10)).length + n / 10) * 10 + n % 10
          = acc * (10 ^ (natDec (n / 10)).length * 10) + (n / 10 * 10 + n % 10) := by ring
      rw [hcalc, hdm]

theorem parseDigits_stop (acc : Nat) (rest : Bytes)
    (h : ∀ c t, rest = c :: t → ¬(48 ≤ c ∧ c ≤ 57)) : parseDigits acc rest = (acc, rest) := by
  cases rest with
  | nil => simp [parseDigits]
  | cons c t => simp [parseDigits, h c t rfl]

theorem parseNat_natDec (n : Nat) (rest : Bytes)
    (h : ∀ c t, rest = c :: t → ¬(48 ≤ c ∧ c ≤ 57)) :
    parseNat (natDec n ++ rest) = some (n, rest) := by
  have key : parseDigits 0 (natDec n ++ rest) = (n, rest) := by
    rw [parseDigits_natDec, parseDigits_stop _ _ h]
    simp
  match hd : natDec n with
  | [] => exact absurd hd (natDec_ne_nil n)
  | c :: t =>
    have hdig : 48 ≤ c ∧ c ≤ 57 := natDec_digits n c (by rw [hd]; simp)
    rw [hd] at key
    simp only [List.cons_append, List.append_eq, parseDigits, if_pos hdig] at key
    simp only [List.cons_append, List.append_eq, parseNat, if_pos hdig]
    have hz : 0 * 10 + (c - 48) = c - 48 := by omega
    rw [hz] at key
    rw [key]

theorem parseJsonInt_jsonInt (i : Int) (rest : Bytes)
    (h : ∀ c t, rest = c :: t → ¬(48 ≤ c ∧ c ≤ 57)) :
    parseJsonInt (jsonInt i ++ rest) = some (i, rest) := by
  by_cases hneg : i < 0
  · simp only [jsonInt, if_pos hneg, List.cons_append, parseJsonInt, reduceIte,
      parseNat_natDec _ _ h, Option.map_some]
    have : -(i.natAbs : Int) = i := by omega
    rw [this]
  · simp only [jsonInt, if_neg hneg]
    match hd : natDec i.toNat with
    | [] => exact absurd hd (natDec_ne_nil i.toNat)
    | c :: t =>
      have hdig : 48 ≤ c ∧ c ≤ 57 := natDec_digits i.toNat c (by rw [hd]; simp)
      have h45 : ¬c = 45 := by omega
      have key := parseNat_natDec i.toNat rest h
      rw [hd] at key
      simp only [List.cons_append, List.append_eq] at key
      simp only [List.cons_append, List.append_eq, parseJsonInt, if_neg h45, key,
        Option.map_some]
      have : (i.toNat : Int) = i := by omega
      rw [this]

theorem parseLit_self (l : Bytes) : parseLit l l = some [] := by
  have h := parseLit_append l []
  rwa [List.append_nil] at h

theorem jsonMarshal_grouped (c : Claims) : jsonMarshal c =
    [123] ++ ((jsonStr (strBytes "user_id") ++ [58]) ++ (jsonStr c.userId ++
      ((44 :: jsonStr (strBytes "email") ++ [58]) ++ (jsonStr c.email ++
      ((44 :: jsonStr (strBytes "name") ++ [58]) ++ (jsonStr c.name ++
      ((44 :: jsonStr (strBytes "role") ++ [58]) ++ (jsonStr c.role ++
      ((44 :: jsonStr (strBytes "exp") ++ [58]) ++ (jsonInt c.expiresAt ++
      ((44 :: jsonStr (strBytes "iat") ++ [58]) ++ (jsonInt c.issuedAt ++
      [125])))))))))))) := by
  simp only [jsonMarshal, List.append_assoc, List.cons_append, List.nil_append]

set_option maxHeartbeats 2000000 in
theorem jsonUnmarshal_jsonMarshal (c : Claims) : jsonUnmarshal (jsonMarshal c) = some c := by
  have hcomma : ∀ (k : String) (body tail : Bytes) (ch : Nat) (t : Bytes),
      (44 :: jsonStr (strBytes k) ++ [58]) ++ (body ++ tail) = ch :: t →
        ¬(48 ≤ ch ∧ ch ≤ 57) := by
    intro k body tail ch t h
    rw [List.cons_append] at h
    injection h with h1 _
    omega
  have hbrace : ∀ (ch : Nat) (t : Bytes), ([125] : Bytes) = ch :: t → ¬(48 ≤ ch ∧ ch ≤ 57) := by
    intro ch t h
    simp only [List.cons.injEq] at h
    omega
  rw [jsonMarshal_grouped, jsonUnmarshal]
  rw [parseLit_append]
  simp only [Option.bind_eq_bind, Option.some_bind]
  rw [parseLit_append]
  simp only [Option.some_bind]
  rw [parseJsonStr_jsonStr]
  simp only [Option.some_bind]
  rw [parseLit_append]
  simp only [Option.some_bind]
  rw [parseJsonStr_jsonStr]
  simp only [Option.some_bind]
  rw [parseLit_append]
  simp only [Option.some_bind]
  rw [parseJsonStr_jsonStr]
  simp only [Option.some_bind]
  rw [parseLit_append]
  simp only [Option.some_bind]
  rw [parseJsonStr_jsonStr]
  simp only [Option.some_bind]
  rw [parseLit_append]
  simp only [Option.some_bind]
  rw [parseJsonInt_jsonInt c.expiresAt _ (hcomma "iat" (jsonInt c.issuedAt) [125])]
  simp only [Option.some_bind]
  rw [parseLit_append]
  simp only [Option.some_bind]
  rw [parseJsonInt_jsonInt c.issuedAt [125] hbrace]
  simp only [Option.some_bind]
  rw [parseLit_self]
  simp only [Option.some_bind]
  rfl

/-! ## Byte-wellformedness of the serialized claims -/

theorem byteOk_append {a b : Bytes} (ha : ByteOk a) (hb : ByteOk b) : ByteOk (a ++ b) := by
  intro x hx
  rcases List.mem_append.mp hx with h | h
  · exact ha x h
  · exact hb x h

theorem byteOk_escapeBytes {s : Bytes} (hs : ByteOk s) : ByteOk (escapeBytes s) := by
  induction s with
  | nil => intro x hx; simp [escapeBytes] at hx
  | cons b t ih =>
    have hb : b < 256 := hs b (by simp)
    have ht : ByteOk t := fun x hx => hs x (by simp [hx])
    intro x hx
    simp only [escapeBytes] at hx
    rcases List.mem_append.mp hx with h | h
    · split_ifs at h with h1 h2 h3
      all_goals simp only [List.mem_cons, List.mem_singleton, List.not_mem_nil] at h
      · rcases h with rfl | rfl | hc
        · omega
        · omega
        · simp at hc
      · rcases h with rfl | rfl | hc
        · omega
        · omega
        · simp at hc
      · unfold hexDigit at h
        rcases h with rfl | rfl | rfl | rfl | h5
        · omega
        · omega
        · omega
        · omega
        rcases h5 with rfl | hc
        · split_ifs <;> omega
        rcases hc with rfl | hc
        · split_ifs <;> omega
        · simp at hc
      · rcases h with rfl | hc
        · omega
        · simp at hc
    · exact ih ht x h

theorem byteOk_append_iff {a b : Bytes} : ByteOk (a ++ b) ↔ ByteOk a ∧ ByteOk b := by
  unfold ByteOk
  simp only [List.mem_append, or_imp, forall_and]

theorem byteOk_jsonStr {s : Bytes} (hs : ByteOk s) : ByteOk (jsonStr s) := by
  unfold jsonStr
  intro x hx
  rcases List.mem_cons.mp hx with h | h
  · omega
  · rcases List.mem_append.mp h with h2 | h2
    · exact byteOk_escapeBytes hs x h2
    · simp at h2
      omega

theorem byteOk_natDec (n : Nat) : ByteOk (natDec n) := by
  intro x hx
  have := natDec_digits n x hx
  omega

theorem byteOk_jsonInt (i : Int) : ByteOk (jsonInt i) := by
  intro x hx
  unfold jsonInt at hx
  split_ifs at hx with h
  · rcases List.mem_cons.mp hx with h2 | h2
    · omega
    · exact byteOk_natDec _ x h2
  · exact byteOk_natDec _ x hx

theorem byteOk_jsonMarshal {c : Claims} (h1 : ByteOk c.userId) (h2 : ByteOk c.email)
    (h3 : ByteOk c.name) (h4 : ByteOk c.role) : ByteOk (jsonMarshal c) := by
  simp only [jsonMarshal, byteOk_append_iff]
  repeat' apply And.intro
  all_goals first
    | exact byteOk_jsonStr h1
    | exact byteOk_jsonStr h2
    | exact byteOk_jsonStr h3
    | exact byteOk_jsonStr h4
    | exact byteOk_jsonInt _
    | exact byteOk_jsonStr (by decide)
    | decide

/-! ## The token pipeline, composed -/

/-- The Claims record GenerateToken builds for a user at instant now with
time to live d (the inline record of the source, named for reuse in
statements). -/
def claimsFor (user : User) (now d : Int) : Claims :=
  { userId := user.id, email := user.email, name := user.name, role := user.role
    expiresAt := now + d, issuedAt := now }

theorem GenerateToken_eq (secret : Bytes) (now : Int) (user : User) (d : Int) :
    GenerateToken secret now user d =
      base64Encode (jsonMarshal (claimsFor user now d)) ++
        46 :: base64Encode (hmacSHA256 secret (jsonMarshal (claimsFor user now d))) := rfl

theorem ValidateToken_construct (secret : Bytes) (now : Int) (cb sig : Bytes)
    (hcb : ByteOk cb) (hsig : 46 ∉ sig) :
    ValidateToken secret now (base64Encode cb ++ 46 :: sig) =
      if sig ≠ base64Encode (hmacSHA256 secret cb) then .error .invalidSignature
      else
        match jsonUnmarshal cb with
        | none => .error .malformedClaims
        | some claims => if now > claims.expiresAt then .error .expired else .ok claims := by
  unfold ValidateToken
  rw [splitOnByte_two (dot_not_mem_base64Encode cb) hsig]
  split
  · rename_i e s heq
    simp only [List.cons.injEq, and_true] at heq
    obtain ⟨rfl, rfl⟩ := heq
    rw [base64Decode_base64Encode hcb]
  · rename_i hne
    exact absurd rfl (hne (base64Encode cb) sig)

theorem dot_not_mem_set {sig : Bytes} {i v : Nat} (h : 46 ∉ sig) (hv : v ≠ 46) :
    46 ∉ sig.set i v := by
  intro hm
  rcases List.mem_or_eq_of_mem_set hm with h2 | h2
  · exact h h2
  · exact hv h2.symm

theorem set_ne_self {sig : Bytes} {i v : Nat} (hi : i < sig.length) (hv : v ≠ sig[i]) :
    sig.set i v ≠ sig := by
  intro he
  have h1 : (sig.set i v)[i]? = sig[i]? := by rw [he]
  rw [List.getElem?_set_self (by simpa using hi), List.getElem?_eq_getElem hi] at h1
  simp at h1
  exact hv h1

/-! ## Length and range facts about the digest and its encoding -/

theorem sha256Compress_length (hs block : List Nat) : (sha256Compress hs block).length = 8 := by
  unfold sha256Compress
  dsimp only
  simp

theorem foldl_compress_length (blocks : List Bytes) (hs : List Nat) (h : hs.length = 8) :
    (blocks.foldl (fun hs block => sha256Compress hs (bytesToWords block)) hs).length = 8 := by
  induction blocks generalizing hs with
  | nil => simpa
  | cons b bs ih => exact ih _ (sha256Compress_length _ _)

theorem foldr_wordBytes_length (ws : List Nat) :
    (ws.foldr (fun w acc => wordBytes w ++ acc) []).length = 4 * ws.length := by
  induction ws with
  | nil => simp
  | cons w t ih =>
    have h4 : (wordBytes w).length = 4 := rfl
    simp only [List.foldr_cons, List.length_append, ih, List.length_cons, h4]
    ring

theorem sha256_length (msg : Bytes) : (sha256 msg).length = 32 := by
  unfold sha256
  rw [foldr_wordBytes_length, foldl_compress_length]
  · rfl

theorem hmacSHA256_length (key msg : Bytes) : (hmacSHA256 key msg).length = 32 :=
  sha256_length _

theorem base64Encode_length (bs : Bytes) :
    (base64Encode bs).length = (bs.length + 2) / 3 * 4 := by
  induction bs using base64Encode.induct with
  | case1 => simp [base64Encode]
  | case2 b0 => simp [base64Encode]
  | case3 b0 b1 => simp [base64Encode]
  | case4 b0 b1 b2 rest ih =>
    simp only [base64Encode, List.length_cons, List.length_append, ih]
    omega

theorem encChar_lt (n : Nat) : encChar n < 256 := by
  unfold encChar
  split_ifs <;> omega

theorem byteOk_base64Encode (bs : Bytes) : ByteOk (base64Encode bs) := by
  induction bs using base64Encode.induct with
  | case1 => intro x hx; simp [base64Encode] at hx
  | case2 b0 =>
    intro x hx
    simp only [base64Encode, List.mem_cons, List.not_mem_nil, or_false] at hx
    rcases hx with rfl | rfl | rfl | rfl <;> first | exact encChar_lt _ | omega
  | case3 b0 b1 =>
    intro x hx
    simp only [base64Encode, List.mem_cons, List.not_mem_nil, or_false] at hx
    rcases hx with rfl | rfl | rfl | rfl <;> first | exact encChar_lt _ | omega
  | case4 b0 b1 b2 rest ih =>
    intro x hx
    simp only [base64Encode, List.mem_cons] at hx
    rcases hx with rfl | rfl | rfl | rfl | h <;>
      first | exact encChar_lt _ | exact ih x h

/-! ## Validation of generated and of corrupted tokens -/

theorem ValidateToken_GenerateToken (secret : Bytes) (u : User) (d now vnow : Int)
    (hid : ByteOk u.id) (hemail : ByteOk u.email) (hname : ByteOk u.name)
    (hrole : ByteOk u.role) (hnow : ¬vnow > now + d) :
    ValidateToken secret vnow (GenerateToken secret now u d) = .ok (claimsFor u now d) := by
  rw [GenerateToken_eq,
    ValidateToken_construct secret vnow _ _ (byteOk_jsonMarshal hid hemail hname hrole)
      (dot_not_mem_base64Encode _),
    if_neg (by simp)]
  simp only [jsonUnmarshal_jsonMarshal]
  rw [if_neg (by simpa [claimsFor] using hnow)]

theorem ValidateToken_dot_in_sig (secret : Bytes) (now : Int) (a sig : Bytes) (i : Nat)
    (ha : 46 ∉ a) (hsig : 46 ∉ sig) (hi : i < sig.length) :
    ValidateToken secret now (a ++ 46 :: sig.set i 46) = .error .invalidFormat := by
  have hset : sig.set i 46 = sig.take i ++ 46 :: sig.drop (i + 1) :=
    List.set_eq_take_cons_drop 46 hi
  have htake : 46 ∉ sig.take i := fun hm => hsig (List.mem_of_mem_take hm)
  have hsplit : splitOnByte 46 (a ++ 46 :: sig.set i 46) =
      a :: sig.take i :: splitOnByte 46 (sig.drop (i + 1)) := by
    rw [hset, splitOnByte_append _ ha, splitOnByte_append _ htake]
  unfold ValidateToken
  rw [hsplit]
  split
  · rename_i e s heq
    exfalso
    cases hsd : splitOnByte 46 (sig.drop (i + 1)) with
    | nil => exact splitOnByte_ne_nil 46 _ hsd
    | cons x xs =>
      rw [hsd] at heq
      simp at heq
  · rfl

/-! ## The claims -/

/-- C1: for every fully-populated Identity u (its fields being byte
strings) and every positive duration d, ValidateToken applied at the
issuance instant to the string GenerateToken returns succeeds and yields
a Claims record whose user_id, email, name and role equal the
corresponding fields of u. -/
theorem C1_generate_then_validate (secret : Bytes) (u : User) (d now : Int)
    (hid : ByteOk u.id) (hemail : ByteOk u.email) (hname : ByteOk u.name)
    (hrole : ByteOk u.role) (hd : 0 < d) :
    ValidateToken secret now (GenerateToken secret now u d) = .ok (claimsFor u now d) ∧
      (claimsFor u now d).userId = u.id ∧ (claimsFor u now d).email = u.email ∧
      (claimsFor u now d).name = u.name ∧ (claimsFor u now d).role = u.role :=
  ⟨ValidateToken_GenerateToken secret u d now now hid hemail hname hrole (by omega),
    rfl, rfl, rfl, rfl⟩

theorem C1_generate_then_validate_witness :
    ByteOk [97] ∧ ByteOk [98] ∧ ByteOk [99] ∧ ByteOk RoleViewer ∧ (0 : Int) < 1 ∧
      (ValidateToken [115] 0 (GenerateToken [115] 0 ⟨[97], [98], [99], RoleViewer⟩ 1) =
          .ok (claimsFor ⟨[97], [98], [99], RoleViewer⟩ 0 1) ∧
        (claimsFor ⟨[97], [98], [99], RoleViewer⟩ 0 1).userId = [97] ∧
        (claimsFor ⟨[97], [98], [99], RoleViewer⟩ 0 1).email = [99] ∧
        (claimsFor ⟨[97], [98], [99], RoleViewer⟩ 0 1).name = [98] ∧
        (claimsFor ⟨[97], [98], [99], RoleViewer⟩ 0 1).role = RoleViewer) :=
  ⟨by decide, by decide, by decide, by decide, by decide,
    C1_generate_then_validate [115] ⟨[97], [98], [99], RoleViewer⟩ 1 0
      (by decide) (by decide) (by decide) (by decide) (by decide)⟩

/-- C5: GenerateToken returns exactly the two-segment, dot-joined,
dual-base64 string base64(json(claims)) ++ [dot] ++
base64(hmac_sha256(json(claims), secret)), where the claims carry the
identity fields of u together with issued_at = now and
expires_at = now + d. -/
theorem C5_wire_format (secret : Bytes) (u : User) (d now : Int) (hd : 0 < d) :
    GenerateToken secret now u d =
      base64Encode (jsonMarshal (claimsFor u now d)) ++ 46 ::
        base64Encode (hmacSHA256 secret (jsonMarshal (claimsFor u now d))) ∧
      (claimsFor u now d).issuedAt = now ∧ (claimsFor u now d).expiresAt = now + d ∧
      (claimsFor u now d).userId = u.id ∧ (claimsFor u now d).email = u.email ∧
      (claimsFor u now d).name = u.name ∧ (claimsFor u now d).role = u.role :=
  ⟨rfl, rfl, rfl, rfl, rfl, rfl, rfl⟩

theorem C5_wire_format_witness :
    (0 : Int) < 1 ∧
      (GenerateToken [115] 0 ⟨[97], [98], [99], RoleViewer⟩ 1 =
        base64Encode (jsonMarshal (claimsFor ⟨[97], [98], [99], RoleViewer⟩ 0 1)) ++ 46 ::
          base64Encode
            (hmacSHA256 [115] (jsonMarshal (claimsFor ⟨[97], [98], [99], RoleViewer⟩ 0 1))) ∧
        (claimsFor ⟨[97], [98], [99], RoleViewer⟩ 0 1).issuedAt = 0 ∧
        (claimsFor ⟨[97], [98], [99], RoleViewer⟩ 0 1).expiresAt = 0 + 1 ∧
        (claimsFor ⟨[97], [98], [99], RoleViewer⟩ 0 1).userId = [97] ∧
        (claimsFor ⟨[97], [98], [99], RoleViewer⟩ 0 1).email = [99] ∧
        (claimsFor ⟨[97], [98], [99], RoleViewer⟩ 0 1).name = [98] ∧
        (claimsFor ⟨[97], [98], [99], RoleViewer⟩ 0 1).role = RoleViewer) :=
  ⟨by decide, C5_wire_format [115] ⟨[97], [98], [99], RoleViewer⟩ 1 0 (by decide)⟩

/-- C6: HasPermission returns true exactly when every capability bit set
to true in the request is also true in the PermissionMap entry of the
subject's role (an unmapped role having every capability false), and the
request with no bits set is satisfied by any role. -/
theorem C6_hasPermission_characterization (u : User) (p : Permission) :
    (u.hasPermission p = true ↔
      (p.canUpload = true → (PermissionMap u.role).canUpload = true) ∧
      (p.canView = true → (PermissionMap u.role).canView = true) ∧
      (p.canDelete = true → (PermissionMap u.role).canDelete = true) ∧
      (p.canManage = true → (PermissionMap u.role).canManage = true)) ∧
    u.hasPermission ⟨false, false, false, false⟩ = true := by
  obtain ⟨pu, pv, pd, pm⟩ := p
  rcases hq : PermissionMap u.role with ⟨qu, qv, qd, qm⟩
  simp only [User.hasPermission, hq]
  clear hq
  revert pu pv pd pm qu qv qd qm
  decide

/-- C7: the role guard terminates with 401 when no identity is in the
context; with an identity it passes the request through iff the identity
role is admin or the required role, and terminates with 403 otherwise. -/
theorem C7_requireRole_characterization (rr : Role) (ctx : Context) :
    (GetUserFromContext ctx = none → RequireRole rr ctx = .terminated 401) ∧
    ∀ u : User, GetUserFromContext ctx = some u →
      (RequireRole rr ctx = .next ctx ↔ (u.role = RoleAdmin ∨ u.role = rr)) ∧
      (RequireRole rr ctx = .terminated 403 ↔ ¬(u.role = RoleAdmin ∨ u.role = rr)) := by
  constructor
  · intro h
    simp only [RequireRole, h]
  · intro u h
    simp only [RequireRole, h]
    by_cases hc : u.role ≠ RoleAdmin ∧ u.role ≠ rr
    · rw [if_pos hc]
      constructor
      · constructor
        · intro he
          exact absurd he (by simp)
        · intro hor
          rcases hor with h1 | h1
          · exact absurd h1 hc.1
          · exact absurd h1 hc.2
      · constructor
        · intro _
          rintro (h1 | h1)
          · exact hc.1 h1
          · exact hc.2 h1
        · intro _
          rfl
    · rw [if_neg hc]
      rw [not_and_or, not_not, not_not] at hc
      constructor
      · constructor
        · intro _
          exact hc
        · intro _
          rfl
      · constructor
        · intro he
          exact absurd he (by simp)
        · intro hn
          exact absurd hc hn

theorem C7_requireRole_witness :
    GetUserFromContext (SetUserInContext [] ⟨[1], [2], [3], RoleUploader⟩) =
        some ⟨[1], [2], [3], RoleUploader⟩ ∧
      GetUserFromContext ([] : Context) = none ∧
      RequireRole RoleUploader (SetUserInContext [] ⟨[1], [2], [3], RoleUploader⟩) =
        .next (SetUserInContext [] ⟨[1], [2], [3], RoleUploader⟩) ∧
      RequireRole RoleAdmin (SetUserInContext [] ⟨[1], [2], [3], RoleUploader⟩) =
        .terminated 403 ∧
      RequireRole RoleUploader [] = .terminated 401 :=
  ⟨by decide, by decide,
    ((C7_requireRole_characterization RoleUploader
          (SetUserInContext [] ⟨[1], [2], [3], RoleUploader⟩)).2
        ⟨[1], [2], [3], RoleUploader⟩ (by decide)).1.mpr (Or.inr rfl),
    ((C7_requireRole_characterization RoleAdmin
          (SetUserInContext [] ⟨[1], [2], [3], RoleUploader⟩)).2
        ⟨[1], [2], [3], RoleUploader⟩ (by decide)).2.mpr (by decide),
    (C7_requireRole_characterization RoleUploader []).1 (by decide)⟩

/-- C2 counterexample: altering the first byte of the signature segment of
a valid generated token to the dot byte (one of the possible different
byte values) makes ValidateToken fail with InvalidFormat, not
InvalidSignature. -/
theorem C2_counterexample :
    GenerateToken [115] 0 ⟨[97], [98], [99], RoleViewer⟩ 1 =
      base64Encode (jsonMarshal (claimsFor ⟨[97], [98], [99], RoleViewer⟩ 0 1)) ++ 46 ::
        base64Encode
          (hmacSHA256 [115] (jsonMarshal (claimsFor ⟨[97], [98], [99], RoleViewer⟩ 0 1))) ∧
    (base64Encode
          (hmacSHA256 [115] (jsonMarshal (claimsFor ⟨[97], [98], [99], RoleViewer⟩ 0 1)))).set
        0 46 ≠
      base64Encode
        (hmacSHA256 [115] (jsonMarshal (claimsFor ⟨[97], [98], [99], RoleViewer⟩ 0 1))) ∧
    ValidateToken [115] 0
        (base64Encode (jsonMarshal (claimsFor ⟨[97], [98], [99], RoleViewer⟩ 0 1)) ++ 46 ::
          (base64Encode
              (hmacSHA256 [115]
                (jsonMarshal (claimsFor ⟨[97], [98], [99], RoleViewer⟩ 0 1)))).set 0 46) =
      .error .invalidFormat := by
  refine ⟨rfl, ?_, ?_⟩
  · have hlen : 0 < (base64Encode
        (hmacSHA256 [115]
          (jsonMarshal (claimsFor ⟨[97], [98], [99], RoleViewer⟩ 0 1)))).length := by
      rw [base64Encode_length, hmacSHA256_length]
      norm_num
    refine set_ne_self hlen ?_
    intro h46
    apply dot_not_mem_base64Encode
      (hmacSHA256 [115] (jsonMarshal (claimsFor ⟨[97], [98], [99], RoleViewer⟩ 0 1)))
    rw [h46]
    exact List.getElem_mem hlen
  · exact ValidateToken_dot_in_sig [115] 0 _ _ 0 (dot_not_mem_base64Encode _)
      (dot_not_mem_base64Encode _) (by rw [base64Encode_length, hmacSHA256_length]; norm_num)

/-- C2 amended: altering one byte of the signature segment of a valid
generated token to any different value other than the dot separator byte
makes ValidateToken fail with InvalidSignature (a dot instead changes the
segment structure and yields InvalidFormat). -/
theorem C2_amended_signature_alteration (secret : Bytes) (u : User) (d now vnow : Int)
    (i v : Nat)
    (hid : ByteOk u.id) (hemail : ByteOk u.email) (hname : ByteOk u.name)
    (hrole : ByteOk u.role)
    (hi : i < (base64Encode (hmacSHA256 secret (jsonMarshal (claimsFor u now d)))).length)
    (hv46 : v ≠ 46)
    (hvne : v ≠ (base64Encode (hmacSHA256 secret (jsonMarshal (claimsFor u now d))))[i]) :
    GenerateToken secret now u d =
      base64Encode (jsonMarshal (claimsFor u now d)) ++ 46 ::
        base64Encode (hmacSHA256 secret (jsonMarshal (claimsFor u now d))) ∧
    ValidateToken secret vnow
        (base64Encode (jsonMarshal (claimsFor u now d)) ++ 46 ::
          (base64Encode (hmacSHA256 secret (jsonMarshal (claimsFor u now d)))).set i v) =
      .error .invalidSignature := by
  refine ⟨rfl, ?_⟩
  rw [ValidateToken_construct secret vnow _ _ (byteOk_jsonMarshal hid hemail hname hrole)
    (dot_not_mem_set (dot_not_mem_base64Encode _) hv46)]
  rw [if_pos (set_ne_self hi hvne)]

theorem C2_amended_signature_alteration_witness :
    ByteOk [97] ∧ (300 : Nat) ≠ 46 ∧
      (GenerateToken [115] 0 ⟨[97], [98], [99], RoleViewer⟩ 1 =
        base64Encode (jsonMarshal (claimsFor ⟨[97], [98], [99], RoleViewer⟩ 0 1)) ++ 46 ::
          base64Encode
            (hmacSHA256 [115] (jsonMarshal (claimsFor ⟨[97], [98], [99], RoleViewer⟩ 0 1))) ∧
      ValidateToken [115] 0
          (base64Encode (jsonMarshal (claimsFor ⟨[97], [98], [99], RoleViewer⟩ 0 1)) ++ 46 ::
            (base64Encode
                (hmacSHA256 [115]
                  (jsonMarshal (claimsFor ⟨[97], [98], [99], RoleViewer⟩ 0 1)))).set 0 300) =
        .error .invalidSignature) :=
  ⟨by decide, by decide,
    C2_amended_signature_alteration [115] ⟨[97], [98], [99], RoleViewer⟩ 1 0 0 0 300
      (by decide) (by decide) (by decide) (by decide)
      (by rw [base64Encode_length, hmacSHA256_length]; norm_num)
      (by decide)
      (by
        intro h
        have hlen : 0 < (base64Encode
            (hmacSHA256 [115]
              (jsonMarshal (claimsFor ⟨[97], [98], [99], RoleViewer⟩ 0 1)))).length := by
          rw [base64Encode_length, hmacSHA256_length]
          norm_num
        have hb := byteOk_base64Encode
          (hmacSHA256 [115] (jsonMarshal (claimsFor ⟨[97], [98], [99], RoleViewer⟩ 0 1)))
          _ (List.getElem_mem hlen)
        rw [← h] at hb
        omega)⟩

/-- C3 counterexample: at validation time exactly equal to expires_at
(now greater than or equal to expires_at as the claim states), the claim
predicts Expired, but ValidateToken succeeds: the expiry test of the code
is strict. -/
theorem C3_counterexample :
    (claimsFor ⟨[97], [98], [99], RoleViewer⟩ 0 1).expiresAt = 1 ∧
    ValidateToken [115] 1 (GenerateToken [115] 0 ⟨[97], [98], [99], RoleViewer⟩ 1) =
      .ok (claimsFor ⟨[97], [98], [99], RoleViewer⟩ 0 1) ∧
    ValidateToken [115] 1 (GenerateToken [115] 0 ⟨[97], [98], [99], RoleViewer⟩ 1) ≠
      .error .expired := by
  refine ⟨rfl, ?_, ?_⟩
  · exact ValidateToken_GenerateToken [115] _ 1 0 1 (by decide) (by decide) (by decide)
      (by decide) (by omega)
  · rw [ValidateToken_GenerateToken [115] _ 1 0 1 (by decide) (by decide) (by decide)
      (by decide) (by omega)]
    simp

/-- C3 amended: a well-formed token (two segments, decodable claims bytes,
signature segment equal to the canonical encoding of the keyed hash of
the claims bytes) whose claims deserialize successfully is rejected with
Expired at every time now strictly greater than expires_at; at
now = expires_at exactly, validation still succeeds. -/
theorem C3_expired_strictly_after (secret : Bytes) (now : Int) (cb : Bytes) (claims : Claims)
    (hcb : ByteOk cb) (hparse : jsonUnmarshal cb = some claims)
    (hexp : now > claims.expiresAt) :
    ValidateToken secret now (base64Encode cb ++ 46 :: base64Encode (hmacSHA256 secret cb)) =
      .error .expired := by
  rw [ValidateToken_construct secret now cb _ hcb (dot_not_mem_base64Encode _),
    if_neg (by simp)]
  simp only [hparse]
  rw [if_pos hexp]

theorem C3_expired_strictly_after_witness :
    jsonUnmarshal (jsonMarshal ⟨[97], [99], [98], RoleViewer, 5, 0⟩) =
        some ⟨[97], [99], [98], RoleViewer, 5, 0⟩ ∧
      (6 : Int) > 5 ∧
      ValidateToken [115] 6
          (base64Encode (jsonMarshal ⟨[97], [99], [98], RoleViewer, 5, 0⟩) ++ 46 ::
            base64Encode
              (hmacSHA256 [115] (jsonMarshal ⟨[97], [99], [98], RoleViewer, 5, 0⟩))) =
        .error .expired :=
  ⟨jsonUnmarshal_jsonMarshal _, by decide,
    C3_expired_strictly_after [115] 6 (jsonMarshal ⟨[97], [99], [98], RoleViewer, 5, 0⟩)
      ⟨[97], [99], [98], RoleViewer, 5, 0⟩
      (byteOk_jsonMarshal (by decide) (by decide) (by decide) (by decide))
      (jsonUnmarshal_jsonMarshal _) (by decide)⟩

/-- C4: every token that splits into exactly two segments with a
base64-decodable claims segment but whose signature segment differs from
the canonical encoding of the keyed hash of the decoded claims bytes is
rejected with InvalidSignature — never Expired, never MalformedClaims,
never a Claims value — whatever the claims bytes contain. -/
theorem C4_unverified_claims_never_trusted (secret : Bytes) (now : Int)
    (token encClaims sig cb : Bytes)
    (hsplit : splitOnByte 46 token = [encClaims, sig])
    (hdec : base64Decode encClaims = some cb)
    (hsig : sig ≠ base64Encode (hmacSHA256 secret cb)) :
    ValidateToken secret now token = .error .invalidSignature := by
  unfold ValidateToken
  rw [hsplit]
  split
  · rename_i e s heq
    simp only [List.cons.injEq, and_true] at heq
    obtain ⟨rfl, rfl⟩ := heq
    simp only [hdec]
    rw [if_pos hsig]
  · rename_i hne
    exact absurd rfl (hne encClaims sig)

theorem C4_unverified_claims_never_trusted_witness :
    splitOnByte 46 [65, 65, 65, 65, 46, 120] = [[65, 65, 65, 65], [120]] ∧
      base64Decode [65, 65, 65, 65] = some [0, 0, 0] ∧
      [120] ≠ base64Encode (hmacSHA256 [115] [0, 0, 0]) ∧
      ValidateToken [115] 0 [65, 65, 65, 65, 46, 120] = .error .invalidSignature := by
  have hsig : [120] ≠ base64Encode (hmacSHA256 [115] [0, 0, 0]) := by
    intro h
    have hl := congrArg List.length h
    rw [base64Encode_length, hmacSHA256_length] at hl
    norm_num at hl
  exact ⟨by decide, by decide, hsig,
    C4_unverified_claims_never_trusted [115] 0 [65, 65, 65, 65, 46, 120]
      [65, 65, 65, 65] [120] [0, 0, 0] (by decide) (by decide) hsig⟩

/-- C8: a request carrying neither the auth_token cookie nor an
Authorization header is terminated with 401 before the downstream handler
runs, and so is every request whose carried token fails validation with
any failure kind; the terminated outcome carries no context, so no
identity is attached. -/
theorem C8_authMiddleware_rejects (secret : Bytes) (now : Int) (r : Request) (ctx : Context) :
    (r.authTokenCookie = none → r.authorizationHeader = [] →
      AuthMiddleware secret now r ctx = .terminated 401) ∧
    ∀ ts e, carriedToken r = some ts → ValidateToken secret now ts = .error e →
      AuthMiddleware secret now r ctx = .terminated 401 := by
  constructor
  · intro hc hh
    have h : carriedToken r = none := by
      unfold carriedToken
      rw [hc]
      simp [hh]
    simp only [AuthMiddleware, h]
  · intro ts e hct hv
    simp only [AuthMiddleware, hct, hv]

theorem C8_authMiddleware_rejects_witness :
    carriedToken ⟨some [98, 97, 100], []⟩ = some [98, 97, 100] ∧
      ValidateToken [115] 0 [98, 97, 100] = .error .invalidFormat ∧
      AuthMiddleware [115] 0 ⟨none, []⟩ [] = .terminated 401 ∧
      AuthMiddleware [115] 0 ⟨some [98, 97, 100], []⟩ [] = .terminated 401 :=
  ⟨by decide, by decide,
    (C8_authMiddleware_rejects [115] 0 ⟨none, []⟩ []).1 rfl rfl,
    (C8_authMiddleware_rejects [115] 0 ⟨some [98, 97, 100], []⟩ []).2
      [98, 97, 100] .invalidFormat (by decide) (by decide)⟩

/-- C9: GetUserFromContext returns exactly the user that
SetUserInContext stored, and on a context whose user key is unbound, or
bound to a non-User value, it returns none rather than a fault. -/
theorem C9_context_roundtrip (ctx : Context) (u : User) :
    GetUserFromContext (SetUserInContext ctx u) = some u ∧
    (contextValue ctx UserContextKey = none → GetUserFromContext ctx = none) ∧
    ∀ t : Nat, contextValue ctx UserContextKey = some (.otherVal t) →
      GetUserFromContext ctx = none := by
  refine ⟨?_, ?_, ?_⟩
  · simp [GetUserFromContext, SetUserInContext, contextValue]
  · intro h
    unfold GetUserFromContext
    rw [h]
  · intro t h
    unfold GetUserFromContext
    rw [h]

theorem C9_context_roundtrip_witness :
    contextValue [] UserContextKey = none ∧
      contextValue [(UserContextKey, CtxVal.otherVal 7)] UserContextKey =
        some (CtxVal.otherVal 7) ∧
      GetUserFromContext (SetUserInContext [] ⟨[1], [2], [3], RoleViewer⟩) =
        some ⟨[1], [2], [3], RoleViewer⟩ ∧
      GetUserFromContext ([] : Context) = none ∧
      GetUserFromContext [(UserContextKey, CtxVal.otherVal 7)] = none :=
  ⟨rfl, by decide,
    (C9_context_roundtrip [] ⟨[1], [2], [3], RoleViewer⟩).1,
    (C9_context_roundtrip [] ⟨[1], [2], [3], RoleViewer⟩).2.1 rfl,
    (C9_context_roundtrip [(UserContextKey, CtxVal.otherVal 7)]
        ⟨[1], [2], [3], RoleViewer⟩).2.2 7 (by decide)⟩

/-- C10: ValidateToken never base64-decodes the signature segment; it
compares the segment, as a byte string, with the canonical standard
encoding of the recomputed HMAC. A signature that is not valid base64, or
that decodes to the correct HMAC bytes through a non-canonical encoding,
is rejected with InvalidSignature (not InvalidFormat), and only the
canonical encoding survives the signature check. -/
theorem C10_signature_compared_as_string (secret : Bytes) (now : Int) (cb sig : Bytes)
    (hcb : ByteOk cb) (hsig46 : 46 ∉ sig)
    (hdec : base64Decode sig = none ∨ base64Decode sig = some (hmacSHA256 secret cb))
    (hnc : sig ≠ base64Encode (hmacSHA256 secret cb)) :
    ValidateToken secret now (base64Encode cb ++ 46 :: sig) = .error .invalidSignature ∧
    ValidateToken secret now
        (base64Encode cb ++ 46 :: base64Encode (hmacSHA256 secret cb)) ≠
      .error .invalidSignature ∧
    ValidateToken secret now
        (base64Encode cb ++ 46 :: base64Encode (hmacSHA256 secret cb)) ≠
      .error .invalidFormat := by
  refine ⟨?_, ?_, ?_⟩
  · rw [ValidateToken_construct secret now cb sig hcb hsig46, if_pos hnc]
  · rw [ValidateToken_construct secret now cb _ hcb (dot_not_mem_base64Encode _),
      if_neg (by simp)]
    rcases hj : jsonUnmarshal cb with _ | c
    · simp [hj]
    · simp only [hj]
      split_ifs <;> simp
  · rw [ValidateToken_construct secret now cb _ hcb (dot_not_mem_base64Encode _),
      if_neg (by simp)]
    rcases hj : jsonUnmarshal cb with _ | c
    · simp [hj]
    · simp only [hj]
      split_ifs <;> simp

theorem C10_signature_compared_as_string_witness :
    ByteOk ([] : Bytes) ∧ 46 ∉ ([33] : Bytes) ∧
      base64Decode [33] = none ∧
      [33] ≠ base64Encode (hmacSHA256 [115] []) ∧
      ValidateToken [115] 0 (base64Encode [] ++ 46 :: [33]) =
        .error .invalidSignature := by
  have hnc : [33] ≠ base64Encode (hmacSHA256 [115] []) := by
    intro h
    have hl := congrArg List.length h
    rw [base64Encode_length, hmacSHA256_length] at hl
    norm_num at hl
  exact ⟨by decide, by decide, by decide, hnc,
    (C10_signature_compared_as_string [115] 0 [] [33] (by decide) (by decide)
      (Or.inl (by decide)) hnc).1⟩
